import Mathlib

/-!
# Verification of the Go chat server (`src/go_server/server.go`)

Shallow embedding of the chat server's registry, nickname validation,
command dispatch and broadcast logic.

Go strings are modelled as lists of bytes (`List Nat`, UTF-8 bytes), so
that Go's byte-based `len`, byte indexing (`nickname[0]`) and
byte-oriented trimming are faithful.  Connections (`net.Conn`, used only
as opaque comparable keys) are modelled as natural numbers.  The
`users map[net.Conn]string` registry is an association list with
no-duplicate-key discipline; Go map assignment is update-in-place /
append, deletion is filtering, and lookup returns the first matching
entry.  Every `fmt.Fprint*` call is recorded as a write event
`(destination connection, bytes written)`.

Each handler runs its whole body inside the server mutex in the source
(lock taken at entry, released by `defer`), so a handler invocation is a
single atomic step here; concurrency is modelled as an arbitrary
interleaving of such atomic steps (the `Reachable`/`ReachableLine`
relations below).
-/

/-- A connection handle (`net.Conn` used as an opaque comparable key). -/
abbrev Conn := Nat

/-- A Go string as its list of UTF-8 bytes. -/
abbrev GoStr := List Nat

/-- Encode an ASCII Lean string literal as a Go byte string. -/
def str (s : String) : GoStr := s.data.map Char.toNat

/-- One write event: `fmt.Fprint*(conn, ...)` recorded as
(destination, bytes written). -/
abbrev Writes := List (Conn × GoStr)

/-- The registry `users map[net.Conn]string` as an association list. -/
abbrev Registry := List (Conn × GoStr)

/-- `strings.Trim(s, " ")`: drop leading and trailing space bytes. -/
def goTrimSpace (s : GoStr) : GoStr :=
  ((s.dropWhile (· == 32)).reverse.dropWhile (· == 32)).reverse

/-- `unicode.IsLetter(rune(b))` for a byte `b` (the argument is always a
single byte of the string, so the rune is in 0–255; this is Go's Latin-1
letter table: ASCII letters plus ª µ º À–Ö Ø–ö ø–ÿ). -/
def isLetterByte (b : Nat) : Bool :=
  (65 ≤ b && b ≤ 90) || (97 ≤ b && b ≤ 122) ||
  b == 170 || b == 181 || b == 186 ||
  (192 ≤ b && b ≤ 214) || (216 ≤ b && b ≤ 246) || (248 ≤ b && b ≤ 255)

/-- A byte matched by the regexp character class `[a-zA-Z0-9_]`. -/
def isWordByte (b : Nat) : Bool :=
  (65 ≤ b && b ≤ 90) || (97 ≤ b && b ≤ 122) || (48 ≤ b && b ≤ 57) || b == 95

/-- `validNicknamePattern.MatchString s` for the anchored pattern
`^[a-zA-Z0-9_]+$`: the string is nonempty and every byte is in the
class (bytes outside ASCII never match the class). -/
def goMatchWordPattern (s : GoStr) : Bool :=
  !s.isEmpty && s.all isWordByte

/-- `validateNickname` from `server.go`: trim spaces, then check length
1–10 (bytes), first byte a letter, and the `[a-zA-Z0-9_]+` pattern, in
that order; returns `(ok, reason)`. -/
def validateNickname (nickname : GoStr) : Bool × GoStr :=
  let sanitizedNickname := goTrimSpace nickname
  if sanitizedNickname.length < 1 || sanitizedNickname.length > 10 then
    (false, str "Nickname must be between 1 and 10 characters")
  else if !(isLetterByte (sanitizedNickname.headD 0)) then
    (false, str "Nickname must start with a letter")
  else if !(goMatchWordPattern sanitizedNickname) then
    (false, str "Nickname can contain only letters, numbers, and underscores")
  else
    (true, [])

/-- Go map read `users[conn]` returning `(value, ok)` as an `Option`. -/
def regLookup (users : Registry) (conn : Conn) : Option GoStr :=
  (users.find? (fun e => e.1 == conn)).map (·.2)

/-- Go map assignment `users[conn] = v`: replace the entry if the key is
present, otherwise add a new entry. -/
def regSet (users : Registry) (conn : Conn) (v : GoStr) : Registry :=
  if users.any (fun e => e.1 == conn) then
    users.map (fun e => if e.1 == conn then (conn, v) else e)
  else
    users ++ [(conn, v)]

/-- Go map deletion `delete(users, conn)`. -/
def regDelete (users : Registry) (conn : Conn) : Registry :=
  users.filter (fun e => !(e.1 == conn))

/-- The `BroadcastType` enumeration from `server.go`. -/
inductive BroadcastType where
  | UserJoinsServer
  | UserChangesNickname
  | UserLeavesServer
deriving DecidableEq

/-- `broadcastMsg`: format the system message for the broadcast type and
write it (newline-terminated, via `fmt.Fprintln`) to every connection in
the registry except `excludeConn`.  The variadic `components` slice is a
list; the source always passes enough components, and the source's
`default` case is unreachable because the inductive type is closed. -/
def broadcastMsg (users : Registry) (broadcastType : BroadcastType)
    (excludeConn : Conn) (components : List GoStr) : Writes :=
  let message :=
    match broadcastType with
    | .UserJoinsServer => components.headD [] ++ str " joined the chat"
    | .UserLeavesServer => components.headD [] ++ str " left the chat"
    | .UserChangesNickname =>
        components.headD [] ++ str " changed nickname to " ++ (components.getD 1 [])
  users.filterMap (fun e =>
    if e.1 != excludeConn then some (e.1, message ++ str "\n") else none)

/-- Reply line of `fmt.Fprintf(conn, "You're already registered as %s\n", ...)`. -/
def msgAlreadyThis (d : GoStr) : GoStr :=
  str "You're already registered as " ++ d ++ str "\n"

/-- Reply line of `fmt.Fprintf(conn, "%s already registered\n", ...)`. -/
def msgTaken (d : GoStr) : GoStr := d ++ str " already registered\n"

/-- Reply line of `fmt.Fprintf(conn, "You changed your nickname from %s to %s\n", ...)`. -/
def msgChanged (old d : GoStr) : GoStr :=
  str "You changed your nickname from " ++ old ++ str " to " ++ d ++ str "\n"

/-- Reply line of `fmt.Fprintf(conn, "Nickname registered as %s\n", ...)`. -/
def msgRegistered (d : GoStr) : GoStr := str "Nickname registered as " ++ d ++ str "\n"

/-- `handleNicknameCommand`: validate, then (all under the mutex) scan
the registry for the desired name — replying "already registered" with
no mutation when found — else reply and broadcast a change or a
registration, then commit `users[conn] = desiredNickname`.  The
broadcast iterates the registry as it is before the commit.  Returns the
new registry and the write events in program order. -/
def handleNicknameCommand (users : Registry) (conn : Conn)
    (desiredNickname : GoStr) : Registry × Writes :=
  let v := validateNickname desiredNickname
  if !v.1 then
    (users, [(conn, v.2 ++ str "\n")])
  else
    match users.find? (fun e => e.2 == desiredNickname) with
    | some e =>
        if e.1 == conn then
          (users, [(conn, msgAlreadyThis desiredNickname)])
        else
          (users, [(conn, msgTaken desiredNickname)])
    | none =>
        match regLookup users conn with
        | some currentNickname =>
            (regSet users conn desiredNickname,
              (conn, msgChanged currentNickname desiredNickname)
                :: broadcastMsg users .UserChangesNickname conn
                     [currentNickname, desiredNickname])
        | none =>
            (regSet users conn desiredNickname,
              (conn, msgRegistered desiredNickname)
                :: broadcastMsg users .UserJoinsServer conn [desiredNickname])

/-- The chat delivery line `"<sender> said: <body>\n"`. -/
def chatLine (senderNickname message : GoStr) : GoStr :=
  senderNickname ++ str " said: " ++ message ++ str "\n"

/-- `sendToAllUsers`: write the chat line to every registered connection
except the sender. -/
def sendToAllUsers (users : Registry) (conn : Conn)
    (senderNickname message : GoStr) : Writes :=
  users.filterMap (fun e =>
    if e.1 != conn then some (e.1, chatLine senderNickname message) else none)

/-- `sendToSpecificUsers`: for each name in the recipient list, write
the chat line to every registered connection holding that name, never
to the sender itself. -/
def sendToSpecificUsers (users : Registry) (conn : Conn)
    (senderNickname : GoStr) (recipients : List GoStr) (message : GoStr) : Writes :=
  (recipients.map (fun receiver =>
    users.filterMap (fun e =>
      if e.2 == receiver && conn != e.1 then
        some (e.1, chatLine senderNickname message)
      else none))).flatten

/-- `strings.Split(s, ",")` on bytes (the separator `,` is one byte):
split at every separator; the empty string yields `[""]`. -/
def goSplit (sep : Nat) : GoStr → List GoStr
  | [] => [[]]
  | b :: rest =>
      let r := goSplit sep rest
      if b == sep then [] :: r
      else (b :: r.headD []) :: r.tailD []

/-- Split a byte string at the first occurrence of `sep`, if any. -/
def splitFirst (sep : Nat) : GoStr → Option (GoStr × GoStr)
  | [] => none
  | b :: rest =>
      if b == sep then some ([], rest)
      else (splitFirst sep rest).map (fun p => (b :: p.1, p.2))

/-- `strings.SplitN(s, sep, n)` for `n ≥ 0`: at most `n` pieces, the
last piece being the unsplit remainder. -/
def goSplitN (sep : Nat) : Nat → GoStr → List GoStr
  | 0, _ => []
  | 1, s => [s]
  | n + 2, s =>
      match splitFirst sep s with
      | none => [s]
      | some p => p.1 :: goSplitN sep (n + 1) p.2

/-- `handleMessageCommand`: split the recipient spec on commas, read the
sender's nickname (`""` when absent), reject unregistered senders, then
fan out to all (`*`) or to the listed recipients.  The registry is never
mutated; it is returned unchanged. -/
def handleMessageCommand (users : Registry) (conn : Conn)
    (recipients message : GoStr) : Registry × Writes :=
  let parsedRecipients := goSplit 44 recipients
  let senderNickname := (regLookup users conn).getD []
  if senderNickname == [] then
    (users, [(conn, str "You must register a nickname before you can send a message\n")])
  else if parsedRecipients.length == 1 && parsedRecipients.headD [] == str "*" then
    (users, sendToAllUsers users conn senderNickname message)
  else
    (users, sendToSpecificUsers users conn senderNickname parsedRecipients message)

/-- `handleListCommand`: write the "Current users: " prefix, one
`<nickname> ` fragment per registered user, then a newline, all to the
requesting connection.  The registry is unchanged. -/
def handleListCommand (users : Registry) (conn : Conn) : Registry × Writes :=
  (users,
    (conn, str "Current users: ")
      :: users.map (fun e => (conn, e.2 ++ str " "))
      ++ [(conn, str "\n")])

/-- `handleUserCommands`: split the sanitized line on the first two
spaces (`strings.SplitN(userCommand, " ", 3)`) and dispatch on the first
token with the source's arity guards, falling through to
`"Invalid command"`. -/
def handleUserCommands (users : Registry) (userCommand : GoStr)
    (conn : Conn) : Registry × Writes :=
  let args := goSplitN 32 3 userCommand
  if args.length ≥ 1 && args.getD 0 [] == str "/LIST" then
    handleListCommand users conn
  else if args.length ≥ 2 && args.getD 0 [] == str "/NICK" then
    handleNicknameCommand users conn (args.getD 1 [])
  else if args.length ≥ 3 && args.getD 0 [] == str "/MSG" then
    handleMessageCommand users conn (args.getD 1 []) (args.getD 2 [])
  else
    (users, [(conn, str "Invalid command\n")])

/-- The tail of `handleClientConnection` after the scan loop ends: when
`scanner.Err()` is non-nil (`readError = true`) only a log line is
produced; otherwise the server broadcasts `UserLeavesServer` with
`users[conn]` (the empty string when the connection never registered).
In both cases the connection's entry is then deleted under the mutex. -/
def sessionEnd (users : Registry) (conn : Conn) (readError : Bool) :
    Registry × Writes :=
  let w :=
    if readError then []
    else broadcastMsg users .UserLeavesServer conn [(regLookup users conn).getD []]
  (regDelete users conn, w)

/-- No two registry entries share a key (the `map` discipline). -/
def keysNodup (users : Registry) : Prop :=
  users.Pairwise (fun a b => a.1 ≠ b.1)

/-- No two registry entries share a nickname value. -/
def valsNodup (users : Registry) : Prop :=
  users.Pairwise (fun a b => a.2 ≠ b.2)

/-- One atomic registry operation, as named by the spec's §4.2: a
`trySetNickname` (the `/NICK` handler, which holds the mutex for its
whole scan-and-commit) with an arbitrary candidate, or the `remove` at
session end. -/
inductive RegStep : Registry → Registry → Prop where
  | nick (users : Registry) (conn : Conn) (desired : GoStr) :
      RegStep users (handleNicknameCommand users conn desired).1
  | disconnect (users : Registry) (conn : Conn) :
      RegStep users (regDelete users conn)

/-- Registry states reachable from the empty map by any interleaving of
atomic `trySetNickname` and `remove` operations. -/
inductive ReachableReg : Registry → Prop where
  | init : ReachableReg []
  | step {r r' : Registry} : ReachableReg r → RegStep r r' → ReachableReg r'

/-- One atomic step of the real command pipeline: a full raw input line
processed by `handleUserCommands`, or a session end (read error or clean
close) followed by the deletion. -/
inductive LineStep : Registry → Registry → Prop where
  | line (users : Registry) (command : GoStr) (conn : Conn) :
      LineStep users (handleUserCommands users command conn).1
  | disconnect (users : Registry) (conn : Conn) (readError : Bool) :
      LineStep users (sessionEnd users conn readError).1

/-- Registry states reachable from the empty map through the real
command pipeline. -/
inductive ReachableLine : Registry → Prop where
  | init : ReachableLine []
  | step {r r' : Registry} : ReachableLine r → LineStep r r' → ReachableLine r'

/-- The ASCII whitespace bytes (tab, LF, VT, FF, CR, space), read off
the claim's words "trimming surrounding whitespace". -/
def wsBytes : List Nat := [9, 10, 11, 12, 13, 32]

/-- Modelled from the claim's words for comparison with the source:
trim *whitespace* (not just spaces) from both ends. -/
def trimWhitespace (s : GoStr) : GoStr :=
  ((s.dropWhile (wsBytes.contains ·)).reverse.dropWhile (wsBytes.contains ·)).reverse

/-- Modelled from the claim's words for comparison with the source:
after trimming surrounding whitespace, the candidate has length 1–10,
starts with a letter, and matches `[A-Za-z0-9_]+`. -/
def specNicknameOK (n : GoStr) : Bool :=
  let t := trimWhitespace n
  decide (1 ≤ t.length) && decide (t.length ≤ 10) &&
    isLetterByte (t.headD 0) && t.all isWordByte

/-- What holds of every nickname value the registry ever stores: it is
nonempty, it passes `validateNickname` as stored, and (because a stored
candidate contains no space byte, so trimming is the identity) the
stored bytes themselves are 1–10 word-class bytes starting with a
letter. -/
def storedNickOK (v : GoStr) : Prop :=
  v ≠ [] ∧ (validateNickname v).1 = true ∧ 1 ≤ v.length ∧ v.length ≤ 10 ∧
  v.all isWordByte = true ∧ isLetterByte (v.headD 0) = true

example : (validateNickname (str "alice")).1 = true := by decide
example : (validateNickname (str "_bob")).2 = str "Nickname must start with a letter" := by decide
example : (validateNickname (str " a ")).1 = true := by decide
example : goSplitN 32 3 (str "/MSG a,b hi there") = [str "/MSG", str "a,b", str "hi there"] := by decide
example : goSplit 44 (str "a,,b") = [str "a", str "", str "b"] := by decide
example :
    handleUserCommands [] (str "/NICK bob") 7
      = ([(7, str "bob")], [(7, str "Nickname registered as bob\n")]) := by decide

lemma validateNickname_eq_true_iff (n : GoStr) :
    (validateNickname n).1 = true ↔
      (1 ≤ (goTrimSpace n).length ∧ (goTrimSpace n).length ≤ 10 ∧
       isLetterByte ((goTrimSpace n).headD 0) = true ∧
       (goTrimSpace n).all isWordByte = true) := by
  simp only [validateNickname, goMatchWordPattern]
  split_ifs with h1 h2 h3
  · simp only [Bool.or_eq_true, decide_eq_true_eq] at h1
    simp only [false_iff]
    rintro ⟨hl, hr, -, -⟩
    omega
  · simp only [Bool.not_eq_true'] at h2
    simp only [false_iff]
    rintro ⟨-, -, hl, -⟩
    rw [hl] at h2
    exact absurd h2 (by decide)
  · simp only [Bool.not_eq_true', Bool.and_eq_false_iff] at h3
    simp only [false_iff]
    rintro ⟨hl, -, -, hall⟩
    rcases h3 with h3 | h3
    · cases hE : (goTrimSpace n).isEmpty with
      | false => rw [hE] at h3; exact absurd h3 (by decide)
      | true =>
          rw [List.isEmpty_iff] at hE
          rw [hE] at hl
          exact absurd hl (by decide)
    · rw [hall] at h3
      exact absurd h3 (by decide)
  · simp only [Bool.not_eq_true', Bool.or_eq_true, decide_eq_true_eq, not_or,
      Bool.not_eq_false, Bool.and_eq_true] at h1 h2 h3
    simp only [true_iff]
    exact ⟨by omega, by omega, h2, h3.2⟩

lemma dropWhile_ne32 {v : GoStr} (h : 32 ∉ v) : v.dropWhile (· == 32) = v := by
  cases v with
  | nil => rfl
  | cons b rest =>
    have hb : (b == 32) = false := by
      simp only [List.mem_cons, not_or] at h
      exact beq_eq_false_iff_ne.mpr (fun hbe => h.1 hbe.symm)
    simp [List.dropWhile_cons, hb]

lemma goTrimSpace_eq_self {v : GoStr} (h : 32 ∉ v) : goTrimSpace v = v := by
  unfold goTrimSpace
  rw [dropWhile_ne32 h, dropWhile_ne32 (by simpa using h), List.reverse_reverse]


lemma regLookup_nil (c : Conn) : regLookup [] c = none := rfl

lemma regLookup_cons (a : Conn × GoStr) (rest : Registry) (c : Conn) :
    regLookup (a :: rest) c = if a.1 = c then some a.2 else regLookup rest c := by
  by_cases h : a.1 = c
  · rw [regLookup, List.find?_cons_of_pos (p := fun e => e.1 == c) rest (by simpa using h)]
    simp [h]
  · rw [regLookup, List.find?_cons_of_neg (p := fun e => e.1 == c) rest (by simpa using h),
      if_neg h]
    rfl

lemma findVal_cons (a : Conn × GoStr) (rest : Registry) (d : GoStr) :
    List.find? (fun e => e.2 == d) (a :: rest)
      = if a.2 = d then some a else List.find? (fun e => e.2 == d) rest := by
  by_cases h : a.2 = d
  · rw [List.find?_cons_of_pos (p := fun e => e.2 == d) rest (by simpa using h), if_pos h]
  · rw [List.find?_cons_of_neg (p := fun e => e.2 == d) rest (by simpa using h), if_neg h]

lemma find?_val_eq_of_mem {users : Registry} (hvals : valsNodup users)
    {c : Conn} {d : GoStr} (hm : (c, d) ∈ users) :
    users.find? (fun e => e.2 == d) = some (c, d) := by
  induction users with
  | nil => cases hm
  | cons a rest ih =>
    rcases List.pairwise_cons.mp hvals with ⟨ha, htail⟩
    rw [findVal_cons]
    by_cases hv : a.2 = d
    · rw [if_pos hv]
      rcases List.mem_cons.mp hm with heq | hmem
      · rw [heq]
      · exact absurd (hv.trans rfl) (ha _ hmem)
    · rw [if_neg hv]
      rcases List.mem_cons.mp hm with heq | hmem
      · exact absurd (congrArg Prod.snd heq).symm hv
      · exact ih htail hmem

lemma find?_val_eq_none {users : Registry} {d : GoStr}
    (h : ∀ c, (c, d) ∉ users) : users.find? (fun e => e.2 == d) = none := by
  rw [List.find?_eq_none]
  intro e he hpe
  have hd : e.2 = d := by simpa using hpe
  exact h e.1 (by rw [← hd]; exact he)

lemma regLookup_eq_some_of_mem {users : Registry} (hkeys : keysNodup users)
    {c : Conn} {v : GoStr} (hm : (c, v) ∈ users) :
    regLookup users c = some v := by
  induction users with
  | nil => cases hm
  | cons a rest ih =>
    rcases List.pairwise_cons.mp hkeys with ⟨ha, htail⟩
    rw [regLookup_cons]
    by_cases hk : a.1 = c
    · rw [if_pos hk]
      rcases List.mem_cons.mp hm with heq | hmem
      · rw [← heq]
      · exact absurd (hk.trans rfl) (ha _ hmem)
    · rw [if_neg hk]
      rcases List.mem_cons.mp hm with heq | hmem
      · exact absurd (congrArg Prod.fst heq).symm hk
      · exact ih htail hmem

lemma mem_of_regLookup_some {users : Registry} {c : Conn} {v : GoStr}
    (h : regLookup users c = some v) : (c, v) ∈ users := by
  induction users with
  | nil => rw [regLookup_nil] at h; cases h
  | cons a rest ih =>
    rw [regLookup_cons] at h
    by_cases hk : a.1 = c
    · rw [if_pos hk] at h
      have : a = (c, v) := by
        rcases a with ⟨a1, a2⟩
        simp only at hk
        simp only [Option.some_inj] at h
        rw [hk, h]
      exact this ▸ List.mem_cons_self a rest
    · rw [if_neg hk] at h
      exact List.mem_cons_of_mem a (ih h)

lemma regLookup_none_iff {users : Registry} {c : Conn} :
    regLookup users c = none ↔ ∀ v, (c, v) ∉ users := by
  induction users with
  | nil => simp [regLookup_nil]
  | cons a rest ih =>
    rw [regLookup_cons]
    by_cases hk : a.1 = c
    · rw [if_pos hk]
      constructor
      · intro h; cases h
      · intro h
        exact absurd (show (c, a.2) ∈ a :: rest by
          rcases a with ⟨a1, a2⟩
          simp only at hk
          rw [hk]
          exact List.mem_cons_self _ _) (h a.2)
    · rw [if_neg hk]
      constructor
      · intro h v hm
        rcases List.mem_cons.mp hm with heq | hmem
        · exact hk (congrArg Prod.fst heq).symm
        · exact ih.mp h v hmem
      · intro h
        exact ih.mpr (fun v hm => h v (List.mem_cons_of_mem a hm))

lemma any_key_eq_false_iff {users : Registry} {c : Conn} :
    users.any (fun e => e.1 == c) = false ↔ regLookup users c = none := by
  induction users with
  | nil => simp [regLookup_nil]
  | cons a rest ih =>
    rw [List.any_cons, regLookup_cons, Bool.or_eq_false_iff]
    by_cases hk : a.1 = c
    · simp [hk]
    · simp only [if_neg hk, ← ih]
      simp [hk]

lemma regLookup_map_update (users : Registry) (c : Conn) (v : GoStr) (c' : Conn) :
    regLookup (users.map (fun e => if e.1 == c then (c, v) else e)) c'
      = if c' = c then (regLookup users c).map (fun _ => v)
        else regLookup users c' := by
  induction users with
  | nil => by_cases h : c' = c <;> simp [regLookup_nil, h]
  | cons a rest ih =>
    simp only [beq_iff_eq] at ih ⊢
    by_cases hac : a.1 = c
    · by_cases hc' : c' = c
      · subst hc'
        simp [regLookup_cons, hac, ih]
      · simp [regLookup_cons, hac, hc', Ne.symm hc',
          show ¬ a.1 = c' by rw [hac]; exact Ne.symm hc', ih]
    · by_cases hc' : c' = c
      · subst hc'
        simp [regLookup_cons, hac, ih]
      · by_cases ha : a.1 = c'
        · simp [regLookup_cons, hac, hc', ha]
        · simp [regLookup_cons, hac, hc', ha, ih]

lemma regLookup_append_single (users : Registry) (c : Conn) (v : GoStr)
    (h : regLookup users c = none) : regLookup (users ++ [(c, v)]) c = some v := by
  induction users with
  | nil => simp [regLookup_cons]
  | cons a rest ih =>
    rw [regLookup_cons] at h
    rw [List.cons_append, regLookup_cons]
    by_cases hk : a.1 = c
    · rw [if_pos hk] at h; cases h
    · rw [if_neg hk] at h
      rw [if_neg hk]
      exact ih h

lemma regLookup_append_single_other (users : Registry) (c : Conn) (v : GoStr)
    (c' : Conn) (h : ¬ c' = c) :
    regLookup (users ++ [(c, v)]) c' = regLookup users c' := by
  induction users with
  | nil =>
    simp only [List.nil_append, regLookup_cons, regLookup_nil]
    rw [if_neg (fun hh => h hh.symm)]
  | cons a rest ih =>
    rw [List.cons_append, regLookup_cons, regLookup_cons]
    by_cases hk : a.1 = c'
    · rw [if_pos hk, if_pos hk]
    · rw [if_neg hk, if_neg hk]
      exact ih

lemma regLookup_regSet (users : Registry) (c : Conn) (v : GoStr) (c' : Conn) :
    regLookup (regSet users c v) c' = if c' = c then some v else regLookup users c' := by
  rw [regSet]
  by_cases h : users.any (fun e => e.1 == c) = true
  · rw [if_pos h, regLookup_map_update]
    by_cases hc : c' = c
    · rw [if_pos hc, if_pos hc]
      cases hl : regLookup users c with
      | none =>
          rw [← any_key_eq_false_iff] at hl
          rw [h] at hl
          cases hl
      | some w => simp
    · rw [if_neg hc, if_neg hc]
  · rw [if_neg h]
    have hnone : regLookup users c = none := by
      rw [← any_key_eq_false_iff]
      cases ha : users.any (fun e => e.1 == c) with
      | false => rfl
      | true => exact absurd ha h
    by_cases hc : c' = c
    · subst hc
      rw [if_pos rfl]
      exact regLookup_append_single users c' v hnone
    · rw [if_neg hc]
      exact regLookup_append_single_other users c v c' hc

lemma mem_regSet {users : Registry} {c : Conn} {v : GoStr} {e : Conn × GoStr}
    (h : e ∈ regSet users c v) : e = (c, v) ∨ e ∈ users := by
  rw [regSet] at h
  by_cases hany : users.any (fun x => x.1 == c) = true
  · rw [if_pos hany] at h
    rcases List.mem_map.mp h with ⟨a, ha, hfa⟩
    by_cases hk : a.1 = c
    · left
      rw [← hfa]
      simp [hk]
    · right
      rw [← hfa]
      simpa [hk] using ha
  · rw [if_neg hany] at h
    rcases List.mem_append.mp h with hm | hm
    · right; exact hm
    · left; simpa using hm

lemma keysNodup_regSet {users : Registry} {c : Conn} {v : GoStr}
    (h : keysNodup users) : keysNodup (regSet users c v) := by
  rw [regSet]
  by_cases hany : users.any (fun e => e.1 == c) = true
  · rw [if_pos hany]
    rw [keysNodup, List.pairwise_map]
    refine h.imp ?_
    intro a b hab
    have k1 : (if a.1 == c then ((c, v) : Conn × GoStr) else a).1 = a.1 := by
      by_cases hh : a.1 = c <;> simp [hh]
    have k2 : (if b.1 == c then ((c, v) : Conn × GoStr) else b).1 = b.1 := by
      by_cases hh : b.1 = c <;> simp [hh]
    rw [k1, k2]
    exact hab
  · rw [if_neg hany]
    rw [keysNodup, List.pairwise_append]
    refine ⟨h, List.pairwise_singleton _ _, ?_⟩
    intro x hx y hy
    have hy' : y = (c, v) := by simpa using hy
    rw [hy']
    have hfalse : users.any (fun e => e.1 == c) = false := by
      cases ha : users.any (fun e => e.1 == c) with
      | false => rfl
      | true => exact absurd ha hany
    have := List.any_eq_false.mp hfalse x hx
    simpa using this

lemma valsNodup_regSet {users : Registry} {c : Conn} {v : GoStr}
    (hk : keysNodup users) (hv : valsNodup users)
    (hfresh : ∀ e ∈ users, e.2 ≠ v) : valsNodup (regSet users c v) := by
  rw [regSet]
  by_cases hany : users.any (fun e => e.1 == c) = true
  · rw [if_pos hany]
    rw [valsNodup, List.pairwise_map]
    refine (hk.and hv).imp_of_mem ?_
    intro a b ha hb hab
    rcases hab with ⟨hk1, hv1⟩
    by_cases h1 : a.1 = c <;> by_cases h2 : b.1 = c
    · exact absurd (h1.trans h2.symm) hk1
    · simp only [h1, h2, beq_self_eq_true, if_pos, if_true]
      simp [h2]
      exact Ne.symm (hfresh b hb)
    · simp [h1, h2]
      exact hfresh a ha
    · simp [h1, h2]
      exact hv1
  · rw [if_neg hany]
    rw [valsNodup, List.pairwise_append]
    refine ⟨hv, List.pairwise_singleton _ _, ?_⟩
    intro x hx y hy
    have hy' : y = (c, v) := by simpa using hy
    rw [hy']
    exact hfresh x hx

lemma keysNodup_regDelete {users : Registry} (c : Conn)
    (h : keysNodup users) : keysNodup (regDelete users c) :=
  h.sublist (List.filter_sublist users)

lemma valsNodup_regDelete {users : Registry} (c : Conn)
    (h : valsNodup users) : valsNodup (regDelete users c) :=
  h.sublist (List.filter_sublist users)

lemma handleNicknameCommand_invalid {users : Registry} {conn : Conn} {d : GoStr}
    (hv : (validateNickname d).1 = false) :
    handleNicknameCommand users conn d
      = (users, [(conn, (validateNickname d).2 ++ str "\n")]) := by
  rw [handleNicknameCommand]
  simp [hv]

lemma handleNicknameCommand_fst_cases (users : Registry) (conn : Conn) (d : GoStr) :
    (handleNicknameCommand users conn d).1 = users ∨
    ((validateNickname d).1 = true ∧
     users.find? (fun e => e.2 == d) = none ∧
     (handleNicknameCommand users conn d).1 = regSet users conn d) := by
  rw [handleNicknameCommand]
  cases hv : (validateNickname d).1 with
  | false => left; simp [hv]
  | true =>
    cases hf : users.find? (fun e => e.2 == d) with
    | some e =>
        left
        by_cases he : e.1 = conn <;> simp [hv, hf, he]
    | none =>
        cases hl : regLookup users conn with
        | some old => right; exact ⟨rfl, rfl, by simp [hv, hf, hl]⟩
        | none => right; exact ⟨rfl, rfl, by simp [hv, hf, hl]⟩

lemma reachableReg_nodup {r : Registry} (h : ReachableReg r) :
    keysNodup r ∧ valsNodup r := by
  induction h with
  | init => exact ⟨List.Pairwise.nil, List.Pairwise.nil⟩
  | @step r r' hr hs ih =>
    rcases ih with ⟨hk, hv⟩
    cases hs with
    | nick conn d =>
      rcases handleNicknameCommand_fst_cases r conn d with heq | ⟨hval, hfind, heq⟩
      · rw [heq]; exact ⟨hk, hv⟩
      · rw [heq]
        have hfresh : ∀ e ∈ r, e.2 ≠ d := by
          intro e he
          have := List.find?_eq_none.mp hfind e he
          simpa using this
        exact ⟨keysNodup_regSet hk, valsNodup_regSet hk hv hfresh⟩
    | disconnect conn =>
      exact ⟨keysNodup_regDelete conn hk, valsNodup_regDelete conn hv⟩

lemma handleListCommand_fst (users : Registry) (conn : Conn) :
    (handleListCommand users conn).1 = users := rfl

lemma handleMessageCommand_fst (users : Registry) (conn : Conn)
    (recipients message : GoStr) :
    (handleMessageCommand users conn recipients message).1 = users := by
  rw [handleMessageCommand]
  split_ifs <;> rfl

lemma sessionEnd_fst (users : Registry) (conn : Conn) (readError : Bool) :
    (sessionEnd users conn readError).1 = regDelete users conn := rfl

lemma handleUserCommands_fst_cases (users : Registry) (command : GoStr) (conn : Conn) :
    (handleUserCommands users command conn).1 = users ∨
    ((goSplitN 32 3 command).length ≥ 2 ∧
     (handleUserCommands users command conn).1
       = (handleNicknameCommand users conn ((goSplitN 32 3 command).getD 1 [])).1) := by
  rw [handleUserCommands]
  by_cases c1 : (decide ((goSplitN 32 3 command).length ≥ 1)
      && ((goSplitN 32 3 command).getD 0 [] == str "/LIST")) = true
  · left; rw [if_pos c1, handleListCommand_fst]
  · rw [if_neg c1]
    by_cases c2 : (decide ((goSplitN 32 3 command).length ≥ 2)
        && ((goSplitN 32 3 command).getD 0 [] == str "/NICK")) = true
    · right
      rw [Bool.and_eq_true, decide_eq_true_eq] at c2
      exact ⟨c2.1, by rw [if_pos (by rw [Bool.and_eq_true, decide_eq_true_eq]; exact c2)]⟩
    · rw [if_neg c2]
      by_cases c3 : (decide ((goSplitN 32 3 command).length ≥ 3)
          && ((goSplitN 32 3 command).getD 0 [] == str "/MSG")) = true
      · left; rw [if_pos c3, handleMessageCommand_fst]
      · left; rw [if_neg c3]

lemma lineStep_regStep {r r' : Registry} (h : LineStep r r') :
    RegStep r r' ∨ r' = r := by
  cases h with
  | line command conn =>
    rcases handleUserCommands_fst_cases r command conn with he | ⟨-, he⟩
    · right; exact he
    · left; rw [he]; exact RegStep.nick r conn _
  | disconnect conn readError =>
    left
    rw [sessionEnd_fst]
    exact RegStep.disconnect r conn

lemma reachableLine_reachableReg {r : Registry} (h : ReachableLine r) :
    ReachableReg r := by
  induction h with
  | init => exact ReachableReg.init
  | step hr hs ih =>
    rcases lineStep_regStep hs with hstep | heq
    · exact ReachableReg.step ih hstep
    · rw [heq]; exact ih

lemma splitFirst_none_not_mem {sep : Nat} {s : GoStr}
    (h : splitFirst sep s = none) : sep ∉ s := by
  induction s with
  | nil => simp
  | cons b rest ih =>
    rw [splitFirst] at h
    by_cases hb : b = sep
    · rw [if_pos (by simpa using hb)] at h; cases h
    · rw [if_neg (by simpa using hb)] at h
      rw [Option.map_eq_none'] at h
      simp only [List.mem_cons, not_or]
      exact ⟨fun hh => hb hh.symm, ih h⟩

lemma splitFirst_some_not_mem {sep : Nat} {s : GoStr} {p : GoStr × GoStr}
    (h : splitFirst sep s = some p) : sep ∉ p.1 := by
  induction s generalizing p with
  | nil => cases h
  | cons b rest ih =>
    rw [splitFirst] at h
    by_cases hb : b = sep
    · rw [if_pos (by simpa using hb)] at h
      obtain rfl : ([], rest) = p := by injection h
      simp
    · rw [if_neg (by simpa using hb)] at h
      cases hsf : splitFirst sep rest with
      | none => rw [hsf] at h; cases h
      | some q =>
        rw [hsf, Option.map_some'] at h
        obtain rfl : (b :: q.1, q.2) = p := by injection h
        simp only [List.mem_cons, not_or]
        exact ⟨fun hh => hb hh.symm, ih hsf⟩

lemma goSplitN3_arg1_no_space (command : GoStr) :
    32 ∉ (goSplitN 32 3 command).getD 1 [] := by
  show 32 ∉ (goSplitN 32 (1 + 2) command).getD 1 []
  rw [goSplitN]
  cases h1 : splitFirst 32 command with
  | none => simp
  | some p =>
    show 32 ∉ (p.1 :: goSplitN 32 (0 + 2) p.2).getD 1 []
    rw [goSplitN]
    cases h2 : splitFirst 32 p.2 with
    | none =>
      simpa using splitFirst_none_not_mem h2
    | some q =>
      simpa using splitFirst_some_not_mem h2

lemma storedNickOK_of_valid {d : GoStr} (hv : (validateNickname d).1 = true)
    (hs : 32 ∉ d) : storedNickOK d := by
  have ht : goTrimSpace d = d := goTrimSpace_eq_self hs
  rcases (validateNickname_eq_true_iff d).mp hv with ⟨h1, h2, h3, h4⟩
  rw [ht] at h1 h2 h3 h4
  refine ⟨?_, hv, h1, h2, h4, h3⟩
  intro he
  rw [he] at h1
  exact absurd h1 (by decide)

lemma reachableLine_storedOK {r : Registry} (h : ReachableLine r) :
    ∀ e ∈ r, storedNickOK e.2 := by
  induction h with
  | init => intro e he; cases he
  | @step r r' hr hs ih =>
    cases hs with
    | line command conn =>
      rcases handleUserCommands_fst_cases r command conn with heq | ⟨hlen, heq⟩
      · rw [heq]; exact ih
      · rw [heq]
        rcases handleNicknameCommand_fst_cases r conn ((goSplitN 32 3 command).getD 1 [])
          with heq2 | ⟨hval, hfind, heq2⟩
        · rw [heq2]; exact ih
        · rw [heq2]
          intro e he
          rcases mem_regSet he with rfl | hmem
          · exact storedNickOK_of_valid hval (goSplitN3_arg1_no_space command)
          · exact ih e hmem
    | disconnect conn readError =>
      rw [sessionEnd_fst]
      intro e he
      exact ih e (List.mem_of_mem_filter he)

lemma nick_cases_core (users : Registry) (conn : Conn) (d : GoStr)
    (hval : (validateNickname d).1 = true) (hvals : valsNodup users) :
    ((conn, d) ∈ users →
       handleNicknameCommand users conn d = (users, [(conn, msgAlreadyThis d)])) ∧
    (∀ c, c ≠ conn → (c, d) ∈ users →
       handleNicknameCommand users conn d = (users, [(conn, msgTaken d)])) ∧
    ((∀ c, (c, d) ∉ users) → ∀ old, regLookup users conn = some old →
       handleNicknameCommand users conn d
         = (regSet users conn d,
            (conn, msgChanged old d)
              :: broadcastMsg users .UserChangesNickname conn [old, d]) ∧
       regLookup (regSet users conn d) conn = some d ∧
       (∀ c, c ≠ conn → regLookup (regSet users conn d) c = regLookup users c)) ∧
    ((∀ c, (c, d) ∉ users) → regLookup users conn = none →
       handleNicknameCommand users conn d
         = (regSet users conn d,
            (conn, msgRegistered d)
              :: broadcastMsg users .UserJoinsServer conn [d]) ∧
       regSet users conn d = users ++ [(conn, d)]) := by
  refine ⟨?_, ?_, ?_, ?_⟩
  · intro hm
    have hf := find?_val_eq_of_mem hvals hm
    rw [handleNicknameCommand]
    simp [hval, hf]
  · intro c hc hm
    have hf := find?_val_eq_of_mem hvals hm
    rw [handleNicknameCommand]
    simp [hval, hf, hc]
  · intro hn old hl
    have hf := find?_val_eq_none (fun c => hn c)
    constructor
    · rw [handleNicknameCommand]
      simp [hval, hf, hl]
    constructor
    · rw [regLookup_regSet, if_pos rfl]
    · intro c hc
      rw [regLookup_regSet, if_neg hc]
  · intro hn hl
    have hf := find?_val_eq_none (fun c => hn c)
    constructor
    · rw [handleNicknameCommand]
      simp [hval, hf, hl]
    · rw [regSet, if_neg ?_]
      rw [← any_key_eq_false_iff] at hl
      rw [hl]
      simp

/-- Claim C1 (code divergence, evaluated): at the end of a session the
entry is deleted in both paths, but the departure broadcast diverges
from the spec: with registry `{1 ↦ alice, 2 ↦ bob}`, a read error on
connection 1 produces *no* broadcast at all (first conjunct), while a
clean close of never-registered connection 2 with registry
`{1 ↦ alice}` broadcasts `" left the chat"` with an empty nickname to
connection 1 (second conjunct). -/
theorem sessionEnd_divergence :
    sessionEnd [(1, str "alice"), (2, str "bob")] 1 true = ([(2, str "bob")], []) ∧
    sessionEnd [(1, str "alice")] 2 false
      = ([(1, str "alice")], [(1, str " left the chat\n")]) := by
  decide

/-- Claim C2 (counterexample): for the candidate `"\ta"` (tab then `a`),
trimming *whitespace* leaves `"a"`, which satisfies the claim's three
rules, yet `validateNickname` rejects it because the code trims only
space characters and the tab then fails the first-letter check. -/
theorem validate_trim_counterexample :
    (validateNickname [9, 97]).1 = false ∧ specNicknameOK [9, 97] = true := by
  decide

/-- Claim C2 (amended): `validateNickname n` returns ok iff, after
trimming surrounding *space characters (U+0020) only*, the trimmed
candidate has byte length between 1 and 10, its first byte is a letter,
and every byte matches `[A-Za-z0-9_]` (with the string nonempty). -/
theorem validate_characterization (n : GoStr) :
    (validateNickname n).1 = true ↔
      (1 ≤ (goTrimSpace n).length ∧ (goTrimSpace n).length ≤ 10 ∧
       isLetterByte ((goTrimSpace n).headD 0) = true ∧
       (goTrimSpace n).all isWordByte = true) :=
  validateNickname_eq_true_iff n

/-- Claim C3: with a validated candidate and pairwise-distinct stored
nicknames, a `/NICK` is classified exactly as: an entry already holding
the name yields `AlreadyThis` for this connection or `Taken` for
another, both leaving the registry untouched; otherwise an existing
entry for this connection is `Changed(old)` with the value replaced by
the desired name, else `Registered` with a new entry appended — scan
and commit happening in the one atomic handler step. -/
theorem nick_decision_procedure (users : Registry) (conn : Conn) (d : GoStr)
    (hval : (validateNickname d).1 = true) (hvals : valsNodup users) :
    ((conn, d) ∈ users →
       handleNicknameCommand users conn d = (users, [(conn, msgAlreadyThis d)])) ∧
    (∀ c, c ≠ conn → (c, d) ∈ users →
       handleNicknameCommand users conn d = (users, [(conn, msgTaken d)])) ∧
    ((∀ c, (c, d) ∉ users) → ∀ old, regLookup users conn = some old →
       handleNicknameCommand users conn d
         = (regSet users conn d,
            (conn, msgChanged old d)
              :: broadcastMsg users .UserChangesNickname conn [old, d]) ∧
       regLookup (regSet users conn d) conn = some d ∧
       (∀ c, c ≠ conn → regLookup (regSet users conn d) c = regLookup users c)) ∧
    ((∀ c, (c, d) ∉ users) → regLookup users conn = none →
       handleNicknameCommand users conn d
         = (regSet users conn d,
            (conn, msgRegistered d)
              :: broadcastMsg users .UserJoinsServer conn [d]) ∧
       regSet users conn d = users ++ [(conn, d)]) :=
  nick_cases_core users conn d hval hvals

/-- Claim C3 (witness): with `alice` held by connection 1, a `/NICK alice`
from connection 2 is rejected as taken, with no registry change. -/
theorem nick_decision_procedure_witness :
    handleNicknameCommand [(1, str "alice")] 2 (str "alice")
      = ([(1, str "alice")], [(2, msgTaken (str "alice"))]) :=
  ((nick_decision_procedure [(1, str "alice")] 2 (str "alice") (by decide)
      (show valsNodup _ from List.pairwise_singleton _ _)).2.1) 1 (by decide) (by decide)

/-- Claim C4: in every registry state reachable by any sequence of atomic
`/NICK` and removal operations, the stored nicknames are pairwise
distinct. -/
theorem registry_nickname_uniqueness {r : Registry} (h : ReachableReg r) :
    valsNodup r :=
  (reachableReg_nodup h).2

/-- Claim C4 (witness): the state `{1 ↦ alice}` is reachable and its
values are pairwise distinct. -/
theorem registry_nickname_uniqueness_witness : valsNodup [(1, str "alice")] := by
  have h0 : ReachableReg ((handleNicknameCommand [] 1 (str "alice")).1) :=
    ReachableReg.step ReachableReg.init (RegStep.nick [] 1 (str "alice"))
  have he : (handleNicknameCommand [] 1 (str "alice")).1 = [(1, str "alice")] := by
    decide
  exact registry_nickname_uniqueness (he ▸ h0)

/-- Claim C7: in any pipeline-reachable state, a `/NICK` for the nickname
the connection already holds replies with the self-re-registration
message, leaves the whole registry unchanged, and writes nothing to any
other connection. -/
theorem nick_self_reregistration {users : Registry} {conn : Conn} {n : GoStr}
    (hr : ReachableLine users) (hm : (conn, n) ∈ users) :
    handleNicknameCommand users conn n = (users, [(conn, msgAlreadyThis n)]) := by
  have hval : (validateNickname n).1 = true :=
    (reachableLine_storedOK hr (conn, n) hm).2.1
  have hvals : valsNodup users :=
    (reachableReg_nodup (reachableLine_reachableReg hr)).2
  exact (nick_cases_core users conn n hval hvals).1 hm

/-- Claim C7 (witness): after `/NICK alice` from connection 1, a second
`/NICK alice` from connection 1 replies "already registered" and
changes nothing. -/
theorem nick_self_reregistration_witness :
    handleNicknameCommand [(1, str "alice")] 1 (str "alice")
      = ([(1, str "alice")], [(1, msgAlreadyThis (str "alice"))]) := by
  have h0 : ReachableLine ((handleUserCommands [] (str "/NICK alice") 1).1) :=
    ReachableLine.step ReachableLine.init (LineStep.line [] (str "/NICK alice") 1)
  have he : (handleUserCommands [] (str "/NICK alice") 1).1 = [(1, str "alice")] := by
    decide
  exact nick_self_reregistration (he ▸ h0) (by decide)

/-- Claim C6 (counterexample): on `/NICK` with the empty candidate, the
line written back is `"Nickname must be between 1 and 10 characters"`,
not the bare reason fragment `"must be between 1 and 10 characters"`
quoted in the claim. -/
theorem nick_invalid_reply_counterexample :
    (handleNicknameCommand [] 1 (str "")).2
        = [(1, str "Nickname must be between 1 and 10 characters" ++ str "\n")] ∧
    (handleNicknameCommand [] 1 (str "")).2
        ≠ [(1, str "must be between 1 and 10 characters" ++ str "\n")] := by
  decide

/-- Claim C6 (amended): on any `/NICK` whose candidate fails validation,
the only write is the reason line back to the requester, the registry is
untouched, and the reason is that of the *first* failing rule in the
order length, first-letter, character-class, each prefixed with
`"Nickname "`: `"Nickname must be between 1 and 10 characters"`,
`"Nickname must start with a letter"`,
`"Nickname can contain only letters, numbers, and underscores"`. -/
theorem nick_invalid_reply (users : Registry) (conn : Conn) (n : GoStr)
    (h : (validateNickname n).1 = false) :
    handleNicknameCommand users conn n
        = (users, [(conn, (validateNickname n).2 ++ str "\n")]) ∧
    ((goTrimSpace n).length < 1 ∨ (goTrimSpace n).length > 10 →
       (validateNickname n).2 = str "Nickname must be between 1 and 10 characters") ∧
    (1 ≤ (goTrimSpace n).length → (goTrimSpace n).length ≤ 10 →
       isLetterByte ((goTrimSpace n).headD 0) = false →
       (validateNickname n).2 = str "Nickname must start with a letter") ∧
    (1 ≤ (goTrimSpace n).length → (goTrimSpace n).length ≤ 10 →
       isLetterByte ((goTrimSpace n).headD 0) = true →
       (validateNickname n).2
         = str "Nickname can contain only letters, numbers, and underscores") := by
  refine ⟨handleNicknameCommand_invalid h, ?_, ?_, ?_⟩
  · intro hlen
    have hc : ((goTrimSpace n).length < 1 || (goTrimSpace n).length > 10) = true := by
      simp only [Bool.or_eq_true, decide_eq_true_eq]
      exact hlen
    simp only [validateNickname]
    rw [hc]
    simp
  · intro h1 h2 h3
    have hc : ((goTrimSpace n).length < 1 || (goTrimSpace n).length > 10) = false := by
      simp only [Bool.or_eq_false_iff, decide_eq_false_iff_not]
      omega
    simp only [validateNickname]
    rw [hc, h3]
    simp
  · intro h1 h2 h3
    have hc : ((goTrimSpace n).length < 1 || (goTrimSpace n).length > 10) = false := by
      simp only [Bool.or_eq_false_iff, decide_eq_false_iff_not]
      omega
    cases hp : goMatchWordPattern (goTrimSpace n) with
    | true =>
      exfalso
      simp only [validateNickname] at h
      rw [hc, h3, hp] at h
      simp at h
    | false =>
      simp only [validateNickname]
      rw [hc, h3, hp]
      simp

/-- Claim C6 (witness): `/NICK _x` fails the first-letter rule and the
requester gets exactly that line. -/
theorem nick_invalid_reply_witness :
    handleNicknameCommand [] 1 (str "_x")
      = ([], [(1, str "Nickname must start with a letter" ++ str "\n")]) := by
  have h := nick_invalid_reply [] 1 (str "_x") (by decide)
  rw [h.1, h.2.2.1 (by decide) (by decide) (by decide)]

/-- Claim C5: none of the three fan-out routines — wildcard chat,
named-recipient chat (whatever the recipient list, the sender's own name
included), and the system broadcasts — ever writes a line to the
triggering (excluded) connection itself. -/
theorem broadcast_excludes_trigger (users : Registry) (conn : Conn)
    (senderNickname message : GoStr) (recipients components : List GoStr)
    (t : BroadcastType) :
    (sendToAllUsers users conn senderNickname message).all
        (fun w => w.1 != conn) = true ∧
    (sendToSpecificUsers users conn senderNickname recipients message).all
        (fun w => w.1 != conn) = true ∧
    (broadcastMsg users t conn components).all (fun w => w.1 != conn) = true := by
  refine ⟨?_, ?_, ?_⟩
  · rw [List.all_eq_true]
    intro w hw
    rw [sendToAllUsers] at hw
    rcases List.mem_filterMap.mp hw with ⟨e, he, hfe⟩
    by_cases hc : e.1 = conn
    · simp [hc] at hfe
    · rw [if_pos (by simpa using hc)] at hfe
      obtain rfl : (e.1, chatLine senderNickname message) = w := by injection hfe
      simpa using hc
  · rw [List.all_eq_true]
    intro w hw
    rw [sendToSpecificUsers] at hw
    rcases List.mem_flatten.mp hw with ⟨l, hl, hwl⟩
    rcases List.mem_map.mp hl with ⟨receiver, hrecv, hfl⟩
    rw [← hfl] at hwl
    rcases List.mem_filterMap.mp hwl with ⟨e, he, hfe⟩
    by_cases hcond : (e.2 == receiver && conn != e.1) = true
    · rw [if_pos hcond] at hfe
      obtain rfl : (e.1, chatLine senderNickname message) = w := by injection hfe
      have hx : e.2 = receiver ∧ ¬ conn = e.1 := by simpa using hcond
      simp only [bne_iff_ne]
      exact fun hh => hx.2 hh.symm
    · rw [if_neg hcond] at hfe
      cases hfe
  · rw [List.all_eq_true]
    intro w hw
    cases t <;>
      (simp only [broadcastMsg] at hw
       rcases List.mem_filterMap.mp hw with ⟨e, he, hfe⟩
       by_cases hc : e.1 = conn
       · simp [hc] at hfe
       · rw [if_pos (by simpa using hc)] at hfe
         have hpair := Option.some_inj.mp hfe
         have he1 := congrArg Prod.fst hpair
         rw [← he1]
         simpa using hc)

/-- Claim C8: a `/MSG` from a connection with no registry entry writes
exactly the registration-required line back to the sender, writes to
nobody else, and leaves the registry unchanged. -/
theorem msg_unregistered_rejected (users : Registry) (conn : Conn)
    (recipients message : GoStr) (h : regLookup users conn = none) :
    handleMessageCommand users conn recipients message
      = (users,
         [(conn, str "You must register a nickname before you can send a message\n")]) := by
  simp [handleMessageCommand, h]

/-- Claim C8 (witness): an unregistered connection sending `/MSG * hi`
gets only the error line. -/
theorem msg_unregistered_rejected_witness :
    handleMessageCommand [] 1 (str "*") (str "hi")
      = ([],
         [(1, str "You must register a nickname before you can send a message\n")]) :=
  msg_unregistered_rejected [] 1 (str "*") (str "hi") rfl

/-- Claim C9: named-recipient fan-out writes only chat lines
`"<sender> said: <body>"`, each to a registered connection whose
nickname is in the recipient list and never to the sender (so names
matching no entry are silently skipped and no error line exists at
all), and it reaches every registered non-sender connection whose
nickname is listed. -/
theorem msg_named_recipients (users : Registry) (conn : Conn)
    (senderNickname : GoStr) (recipients : List GoStr) (message : GoStr) :
    (∀ w ∈ sendToSpecificUsers users conn senderNickname recipients message,
       w.1 ≠ conn ∧ w.2 = chatLine senderNickname message ∧
       ∃ name, name ∈ recipients ∧ (w.1, name) ∈ users) ∧
    (∀ c name, name ∈ recipients → (c, name) ∈ users → c ≠ conn →
       (c, chatLine senderNickname message)
         ∈ sendToSpecificUsers users conn senderNickname recipients message) := by
  constructor
  · intro w hw
    rw [sendToSpecificUsers] at hw
    rcases List.mem_flatten.mp hw with ⟨l, hl, hwl⟩
    rcases List.mem_map.mp hl with ⟨receiver, hrecv, hfl⟩
    rw [← hfl] at hwl
    rcases List.mem_filterMap.mp hwl with ⟨e, he, hfe⟩
    by_cases hcond : (e.2 == receiver && conn != e.1) = true
    · rw [if_pos hcond] at hfe
      have hx : e.2 = receiver ∧ ¬ conn = e.1 := by simpa using hcond
      obtain rfl : (e.1, chatLine senderNickname message) = w := by injection hfe
      refine ⟨fun hh => hx.2 hh.symm, rfl, receiver, hrecv, ?_⟩
      have hee : e = (e.1, receiver) := by
        rw [← hx.1]
      exact hee ▸ he
    · rw [if_neg hcond] at hfe
      cases hfe
  · intro c name hname hmem hc
    rw [sendToSpecificUsers]
    refine List.mem_flatten.mpr
      ⟨users.filterMap (fun e =>
          if e.2 == name && conn != e.1 then
            some (e.1, chatLine senderNickname message)
          else none),
       List.mem_map.mpr ⟨name, hname, rfl⟩, ?_⟩
    refine List.mem_filterMap.mpr ⟨(c, name), hmem, ?_⟩
    have hcnd : (((c, name) : Conn × GoStr).2 == name
        && conn != ((c, name) : Conn × GoStr).1) = true := by
      simp [Ne.symm hc]
    rw [if_pos hcnd]

/-- Claim C9 (witness): with `alice` (connection 1) sending to
`bob,carol` where only `bob` (connection 2) is registered, `bob`
receives the chat line. -/
theorem msg_named_recipients_witness :
    ((2 : Conn), chatLine (str "alice") (str "hi"))
      ∈ sendToSpecificUsers [(1, str "alice"), (2, str "bob")] 1 (str "alice")
          [str "bob", str "carol"] (str "hi") :=
  (msg_named_recipients [(1, str "alice"), (2, str "bob")] 1 (str "alice")
      [str "bob", str "carol"] (str "hi")).2 2 (str "bob")
    (by decide) (by decide) (by decide)

/-- Claim C10: in every pipeline-reachable registry state, every stored
nickname is nonempty, passes `validateNickname` as stored, and consists
of 1–10 word-class bytes starting with a letter; consequently the
`senderNickname == ""` test of `/MSG` cannot misclassify a registered
connection (its lookup never yields the empty string). -/
theorem registry_values_validated {r : Registry} (h : ReachableLine r) :
    ∀ conn v, (conn, v) ∈ r →
      v ≠ [] ∧ (validateNickname v).1 = true ∧
      1 ≤ v.length ∧ v.length ≤ 10 ∧
      v.all isWordByte = true ∧ isLetterByte (v.headD 0) = true ∧
      (regLookup r conn).getD [] ≠ [] := by
  intro conn v hm
  obtain ⟨h1, h2, h3, h4, h5, h6⟩ := reachableLine_storedOK h (conn, v) hm
  refine ⟨h1, h2, h3, h4, h5, h6, ?_⟩
  cases hl : regLookup r conn with
  | none => exact absurd hm (regLookup_none_iff.mp hl v)
  | some w =>
    have hw := mem_of_regLookup_some hl
    have hne := (reachableLine_storedOK h (conn, w) hw).1
    simpa using hne

/-- Claim C10 (witness): in the reachable state after `/NICK alice` from
connection 1, the stored value is nonempty and validated. -/
theorem registry_values_validated_witness :
    str "alice" ≠ ([] : GoStr) ∧ (validateNickname (str "alice")).1 = true := by
  have h0 : ReachableLine ((handleUserCommands [] (str "/NICK alice") 1).1) :=
    ReachableLine.step ReachableLine.init (LineStep.line [] (str "/NICK alice") 1)
  have he : (handleUserCommands [] (str "/NICK alice") 1).1 = [(1, str "alice")] := by
    decide
  have hfacts := registry_values_validated (he ▸ h0) 1 (str "alice") (by decide)
  exact ⟨hfacts.1, hfacts.2.1⟩
